import Mathlib

/-!
Verification of the BotBot core traversal engine (src/botbot/checker.py,
src/botbot/ignore.py) against its natural-language specification.

The filesystem is shallowly embedded: a path is a list of name components
(all paths are taken in absolute form, so `os.path.abspath` is the
identity on them), and a filesystem is a finite association list from
paths to entries.  Entries model regular files, readable directories,
directories whose listing raises `PermissionError`, symbolic links (with
absolute targets), and paths whose `stat` raises `PermissionError` or a
generic `OSError`.  `os.path.realpath`, `os.stat`, `os.lstat`,
`os.path.islink` and `os.listdir` are embedded as total functions over
this model; `realpath` uses fuel to mirror Python's symlink-loop cutoff
(Python's `realpath` never raises on loops, it stops resolving).

Stateful code is embedded as explicit state passing.  The `while` loop of
`Checker.build_checklist` becomes a step function `buildStep` iterated by
a fuel-indexed driver `buildRun`; a Python exception that escapes the
loop (aborting the scan) is modelled by the `aborted` flag.  Printing is
dropped; the values that `write_status` would render are collected in a
`renders` list so that progress claims can be stated.
-/

/-- A filesystem path, as its list of name components (absolute form). -/
abbrev FPath := List String

/-- One filesystem object, as the traversal model needs it. -/
inductive FsEntry where
  | file : FsEntry
  | dir (children : List String) : FsEntry
  | dirDenied (children : List String) : FsEntry
  | symlink (target : FPath) : FsEntry
  | statDenied : FsEntry
  | statErr : FsEntry
deriving DecidableEq

/-- A filesystem: a finite association list from absolute paths to entries. -/
abbrev Fs := List (FPath × FsEntry)

/-- Raw lookup of a path in the filesystem, without following symlinks. -/
def lookupRaw (fs : Fs) (p : FPath) : Option FsEntry :=
  (fs.find? (fun e => e.1 == p)).map (fun e => e.2)

/-- Fuel bound for symlink resolution; any bound works, loops simply stop
resolving when it runs out, as Python's `os.path.realpath` does. -/
def realpathFuel (fs : Fs) (p : FPath) : Nat :=
  p.length + 8 * fs.length + 8

/-- Component-wise symlink resolution: `acc` is the already-resolved
prefix, the second list the remaining components.  A symlink component is
replaced by its (absolute) target; unresolvable components are kept. -/
def realpathAux (fs : Fs) : Nat → FPath → FPath → FPath
  | 0, acc, rest => acc ++ rest
  | Nat.succ fuel, acc, rest =>
    match rest with
    | [] => acc
    | c :: rest2 =>
      match lookupRaw fs (acc ++ [c]) with
      | some (FsEntry.symlink tgt) => realpathAux fs fuel [] (tgt ++ rest2)
      | _ => realpathAux fs fuel (acc ++ [c]) rest2

/-- Model of `os.path.realpath` on absolute paths. -/
def realpath (fs : Fs) (p : FPath) : FPath :=
  realpathAux fs (realpathFuel fs p) [] p

/-- The mode kinds the checker distinguishes (`stat.S_ISDIR`, link-ness). -/
inductive ModeKind where
  | file : ModeKind
  | dir : ModeKind
  | link : ModeKind
deriving DecidableEq

/-- The OSError taxonomy the checker's `except` clauses distinguish:
`FileNotFoundError`, `PermissionError`, and any other `OSError`. -/
inductive OSErr where
  | notFound : OSErr
  | permission : OSErr
  | other : OSErr
deriving DecidableEq

/-- Model of `os.stat`: follows symlinks, then reports the mode. -/
def statFs (fs : Fs) (p : FPath) : Except OSErr ModeKind :=
  match lookupRaw fs (realpath fs p) with
  | some FsEntry.file => Except.ok ModeKind.file
  | some (FsEntry.dir _) => Except.ok ModeKind.dir
  | some (FsEntry.dirDenied _) => Except.ok ModeKind.dir
  | some (FsEntry.symlink _) => Except.error OSErr.other
  | some FsEntry.statDenied => Except.error OSErr.permission
  | some FsEntry.statErr => Except.error OSErr.other
  | none => Except.error OSErr.notFound

/-- Model of `os.lstat`: resolves parent components only, and reports the
mode of the final entry itself (a symlink has link mode). -/
def lstatFs (fs : Fs) (p : FPath) : Except OSErr ModeKind :=
  match p.getLast? with
  | none => Except.error OSErr.notFound
  | some c =>
    match lookupRaw fs (realpathAux fs (realpathFuel fs p) [] p.dropLast ++ [c]) with
    | some FsEntry.file => Except.ok ModeKind.file
    | some (FsEntry.dir _) => Except.ok ModeKind.dir
    | some (FsEntry.dirDenied _) => Except.ok ModeKind.dir
    | some (FsEntry.symlink _) => Except.ok ModeKind.link
    | some FsEntry.statDenied => Except.error OSErr.permission
    | some FsEntry.statErr => Except.error OSErr.other
    | none => Except.error OSErr.notFound

/-- Model of `os.path.islink`. -/
def islinkFs (fs : Fs) (p : FPath) : Bool :=
  match lstatFs fs p with
  | Except.ok ModeKind.link => true
  | _ => false

/-- Model of `os.listdir`: follows symlinks to the directory, then lists
its children; a `dirDenied` directory raises `PermissionError`. -/
def listdirFs (fs : Fs) (p : FPath) : Except OSErr (List String) :=
  match lookupRaw fs (realpath fs p) with
  | some (FsEntry.dir cs) => Except.ok cs
  | some (FsEntry.dirDenied _) => Except.error OSErr.permission
  | some FsEntry.file => Except.error OSErr.other
  | some (FsEntry.symlink _) => Except.error OSErr.other
  | some FsEntry.statDenied => Except.error OSErr.permission
  | some FsEntry.statErr => Except.error OSErr.other
  | none => Except.error OSErr.notFound

/-- Source `is_link` (checker.py line 131): a path is treated as a link
when `os.path.islink` holds of it or its absolute form differs from its
fully resolved form; model paths are absolute, so `abspath` is `id`. -/
def is_link (fs : Fs) (p : FPath) : Bool :=
  islinkFs fs p || decide (realpath fs p ≠ p)

/-- Modelled from the spec: fileinfo.py is not under src/.  Spec section
4.1: construction stats the path eagerly (following symlinks) and yields
a typed failure when the path cannot be stat-ed; only path and mode are
kept, since they are all `build_checklist` reads.  Spec section 4.3 says
the checker enqueues a link's target, so with followSymlinks enabled the
stored path is the resolved path. -/
structure FileInfo where
  path : FPath
  mode : ModeKind
deriving DecidableEq

/-- Modelled from the spec: constructor of FileInfo (fileinfo.py missing
from src/), raising the typed stat failure on error. -/
def mkFileInfo (fs : Fs) (p : FPath) (link : Bool) : Except OSErr FileInfo :=
  match statFs fs p with
  | Except.error e => Except.error e
  | Except.ok m => Except.ok { path := if link then realpath fs p else p, mode := m }

/-- Modelled from the spec: problist.py is not under src/.  Spec section
4.4: `addProblem` appends a (file, code) pair, duplicates accumulate only
once, insertion order preserved. -/
def add_problem (probs : List (FileInfo × String)) (fi : FileInfo) (code : String) :
    List (FileInfo × String) :=
  if (fi, code) ∈ probs then probs else probs ++ [(fi, code)]

/-- The Checker state (checker.py `Checker.__init__`): the set of checks
(a Python `set` of function objects, embedded as a duplicate-free list of
check identifiers whose semantics is supplied separately), the work-list,
the problem list, and the `status` dict fields `cfiles`, `files`,
`starttime`. -/
structure Checker where
  checks : List Nat
  checklist : List FileInfo
  probs : List (FileInfo × String)
  cfiles : Nat
  files : Nat
  starttime : Nat
deriving DecidableEq

/-- A freshly constructed Checker (`Checker.__init__`) holding the given
registered checks. -/
def mkChecker (checks : List Nat) : Checker :=
  { checks := checks, checklist := [], probs := [], cfiles := 0, files := 0, starttime := 0 }

/-- Source `Checker.register` restricted to a single callable: Python
`set.add`, a no-op when the function is already registered. -/
def register (ck : Checker) (f : Nat) : Checker :=
  if f ∈ ck.checks then ck else { ck with checks := ck.checks ++ [f] }

/-- State of the `while` loop in `build_checklist`: the pending
`to_add` list, the checker, the last successfully bound `apath` (Python
local variable, which the `except` handlers read even when the current
iteration's constructor raised), and whether an uncaught exception has
escaped the loop. -/
structure BuildSt where
  toAdd : List FPath
  ck : Checker
  lastApath : Option FileInfo
  aborted : Bool
deriving DecidableEq

/-- One iteration of the `while len(to_add) > 0` loop of
`build_checklist` (checker.py lines 50-78).  `to_add.pop()` removes the
last element; the `except` clauses translate the source's handlers,
including the fact that they read the local `apath`, which still holds
the previous iteration's value (or is unbound, giving an uncaught
`UnboundLocalError`) when `FileInfo` construction raised, and that an
`OSError` raised by `os.lstat` inside the `FileNotFoundError` handler is
itself uncaught. -/
def buildStep (fs : Fs) (ignore : List FPath) (link : Bool) (s : BuildSt) : BuildSt :=
  match s.toAdd.getLast? with
  | none => s
  | some p =>
    match mkFileInfo fs p link with
    | Except.ok apath =>
      if apath.path ∈ ignore then
        { s with toAdd := s.toAdd.dropLast, lastApath := some apath }
      else if is_link fs apath.path then
        if link then
          { s with toAdd := s.toAdd.dropLast ++ [apath.path], lastApath := some apath }
        else
          { s with toAdd := s.toAdd.dropLast, lastApath := some apath }
      else if apath.mode = ModeKind.dir then
        match listdirFs fs apath.path with
        | Except.ok names =>
          { s with toAdd := s.toAdd.dropLast ++ names.map (fun n => apath.path ++ [n]),
                   lastApath := some apath }
        | Except.error OSErr.permission =>
          { s with toAdd := s.toAdd.dropLast,
                   ck := { s.ck with probs := add_problem s.ck.probs apath "PROB_DIR_NOT_WRITABLE" },
                   lastApath := some apath }
        | Except.error _ =>
          { s with toAdd := s.toAdd.dropLast,
                   ck := { s.ck with probs := add_problem s.ck.probs apath "PROB_UNKNOWN_ERROR" },
                   lastApath := some apath }
      else
        { s with toAdd := s.toAdd.dropLast,
                 ck := { s.ck with checklist := s.ck.checklist ++ [apath] },
                 lastApath := some apath }
    | Except.error OSErr.notFound =>
      match s.lastApath with
      | none => { s with toAdd := s.toAdd.dropLast, aborted := true }
      | some prev =>
        match lstatFs fs prev.path with
        | Except.ok _ =>
          { s with toAdd := s.toAdd.dropLast,
                   ck := { s.ck with probs := add_problem s.ck.probs prev "PROB_BROKEN_LINK" } }
        | Except.error _ => { s with toAdd := s.toAdd.dropLast, aborted := true }
    | Except.error OSErr.permission =>
      match s.lastApath with
      | none => { s with toAdd := s.toAdd.dropLast, aborted := true }
      | some prev =>
        { s with toAdd := s.toAdd.dropLast,
                 ck := { s.ck with probs := add_problem s.ck.probs prev "PROB_DIR_NOT_WRITABLE" } }
    | Except.error OSErr.other =>
      match s.lastApath with
      | none => { s with toAdd := s.toAdd.dropLast, aborted := true }
      | some prev =>
        { s with toAdd := s.toAdd.dropLast,
                 ck := { s.ck with probs := add_problem s.ck.probs prev "PROB_UNKNOWN_ERROR" } }

/-- Fuel-indexed driver of the `while` loop: stops when `to_add` is empty
or an exception has escaped. -/
def buildRun (fs : Fs) (ignore : List FPath) (link : Bool) : Nat → BuildSt → BuildSt
  | 0, s => s
  | Nat.succ n, s =>
    if s.aborted then s
    else if s.toAdd.isEmpty then s
    else buildRun fs ignore link n (buildStep fs ignore link s)

/-- Completion of the loop: on normal exit (`to_add` drained, no escaped
exception) the source stores `len(self.checklist)` into `status['files']`
(checker.py line 79); on an abort that line is never reached. -/
def setFilesCount (s : BuildSt) : BuildSt :=
  if s.aborted || !s.toAdd.isEmpty then s
  else { s with ck := { s.ck with files := s.ck.checklist.length } }

/-- Source `Checker.build_checklist` (checker.py lines 45-81): seeds
`to_add` with the root's children (this initial `os.listdir` is outside
the `try`, so its failure aborts), runs the loop, and on normal
completion stores `len(self.checklist)` into `status['files']`.  The
parsed ignore rules are passed in explicitly (the source loads them from
the user's home ignore file at this point). -/
def build_checklist (fs : Fs) (ignore : List FPath) (ck : Checker) (path : FPath)
    (link : Bool) (fuel : Nat) : BuildSt :=
  match listdirFs fs path with
  | Except.error _ => { toAdd := [], ck := ck, lastApath := none, aborted := true }
  | Except.ok names =>
    setFilesCount (buildRun fs ignore link fuel
      { toAdd := names.map (fun n => path ++ [n]), ck := ck, lastApath := none, aborted := false })

/-- Source `Checker.check_file` body for one file: run every registered
check (semantics of check id given by `sem`), record returned problems. -/
def runChecks (sem : Nat → FileInfo → Option String) (checks : List Nat)
    (probs : List (FileInfo × String)) (fi : FileInfo) : List (FileInfo × String) :=
  checks.foldl
    (fun ps c =>
      match sem c fi with
      | some prob => add_problem ps fi prob
      | none => ps)
    probs

/-- Source `Checker.check_file` (checker.py lines 92-106): run the
checks, bump `status['cfiles']`, and, when `status` is true, render
progress; the rendered `(done, total)` pair is returned instead of
printed. -/
def check_file (sem : Nat → FileInfo → Option String) (ck : Checker) (fi : FileInfo)
    (status : Bool) : Checker × List (Nat × Nat) :=
  let ck2 := { ck with probs := runChecks sem ck.checks ck.probs fi, cfiles := ck.cfiles + 1 }
  (ck2, if status then [(ck2.cfiles, ck2.files)] else [])

/-- The `for finfo in self.checklist` loop of `check_all`, accumulating
the checker state and the list of progress renders. -/
def scanList (sem : Nat → FileInfo → Option String) (verbose : Bool)
    (start : Checker × List (Nat × Nat)) (l : List FileInfo) : Checker × List (Nat × Nat) :=
  l.foldl
    (fun acc fi =>
      let r := check_file sem acc.1 fi verbose
      (r.1, acc.2 ++ r.2))
    start

/-- Result of a whole `check_all` invocation: final checker state, the
uncaught-exception flag, and every `(done, total)` progress render. -/
structure ScanRes where
  ck : Checker
  aborted : Bool
  renders : List (Nat × Nat)
deriving DecidableEq

/-- The scanning phase of `check_all`: when the build loop did not
finish (an exception escaped, modelled also for exhausted fuel), the
exception propagates out of `check_all`; otherwise `status['starttime']`
is set and every work-list entry is checked. -/
def scanPhase (sem : Nat → FileInfo → Option String) (verbose : Bool) (now : Nat)
    (b : BuildSt) : ScanRes :=
  if b.aborted || !b.toAdd.isEmpty then { ck := b.ck, aborted := true, renders := [] }
  else
    { ck := (scanList sem verbose ({ b.ck with starttime := now }, []) b.ck.checklist).1,
      aborted := false,
      renders := (scanList sem verbose ({ b.ck with starttime := now }, []) b.ck.checklist).2 }

/-- Source `Checker.check_all` (checker.py lines 83-90): note the source
calls `self.build_checklist(path)` without forwarding its `link`
argument, so the work-list is always built with `link=False`; then sets
`status['starttime']` and checks every work-list entry.  `now` stands for
`time.time()`. -/
def check_all (fs : Fs) (ignore : List FPath) (sem : Nat → FileInfo → Option String)
    (ck : Checker) (path : FPath) (link : Bool) (verbose : Bool) (now : Nat)
    (fuel : Nat) : ScanRes :=
  scanPhase sem verbose now (build_checklist fs ignore ck path false fuel)

/-- Source `Checker.write_status` (checker.py lines 108-116): the
percentage `done / total` (a `ZeroDivisionError` when `total = 0`; the
returned rational is only meaningful under `total ≠ 0`) and the filled
bar length `ceil(perc * barlen)`. -/
def write_status (done total barlen : Nat) : ℚ × ℤ :=
  let perc : ℚ := (done : ℚ) / (total : ℚ)
  (perc, Int.ceil (perc * (barlen : ℚ)))

/-- Splitting a character list at every occurrence of a separator, as
Python `str.split(sep)` does; never returns the empty list. -/
def splitOnChar (sep : Char) : List Char → List (List Char)
  | [] => [[]]
  | c :: rest =>
    match splitOnChar sep rest with
    | [] => [[]]
    | cur :: done => if c = sep then [] :: cur :: done else (c :: cur) :: done

/-- Python `str.strip()` on a character list: whitespace removed from
both ends. -/
def pyStrip (l : List Char) : List Char :=
  ((l.dropWhile Char.isWhitespace).reverse.dropWhile Char.isWhitespace).reverse

/-- Python's line iteration over a file's contents: lines split at
newline characters, the trailing newline producing no extra empty line. -/
def pythonLines (s : String) : List String :=
  if s.data.isEmpty then []
  else
    let parts := splitOnChar (Char.ofNat 10) s.data
    (if parts.getLast? = some [] then parts.dropLast else parts).map List.asString

/-- Source `strip_comments` (ignore.py line 21):
`line.split('#')[0].strip()`. -/
def strip_comments (line : String) : String :=
  List.asString (pyStrip ((splitOnChar (Char.ofNat 35) line.data).headD []))

/-- Source `parse_ignore_rules` (ignore.py lines 12-18): `None` yields
the empty rule list, otherwise one appended, comment-stripped, trimmed
rule per line; the file argument is embedded as its optional contents. -/
def parse_ignore_rules (file : Option String) : List String :=
  match file with
  | none => []
  | some contents => (pythonLines contents).foldl (fun ig line => ig ++ [strip_comments line]) []

/-- Source `find_ignore_file` (ignore.py lines 6-10): looks for the
dotfile `.botbotignore` in the home directory (embedded as the home
directory's name-to-contents listing); returns `None` when absent. -/
def find_ignore_file (home : List (String × String)) : Option String :=
  (home.find? (fun e => e.1 == ".botbotignore")).map (fun e => e.2)

/-- The check-function semantics that always reports no problem. -/
def sem0 : Nat → FileInfo → Option String := fun _ _ => none

/-- Completion of a `build_checklist` call: some fuel makes the pending
list empty with no escaped exception. -/
def buildCompletes (fs : Fs) (ignore : List FPath) (ck : Checker) (path : FPath)
    (link : Bool) : Prop :=
  ∃ fuel, (build_checklist fs ignore ck path link fuel).toAdd = []
    ∧ (build_checklist fs ignore ck path link fuel).aborted = false

/-- Example: a root directory with a regular file and a dangling symbolic
link, the link popped first (children are popped from the end). -/
def fsBroken : Fs :=
  [(["r"], FsEntry.dir ["f", "L"]),
   (["r", "f"], FsEntry.file),
   (["r", "L"], FsEntry.symlink ["x"])]

/-- Example: a symlink cycle, `r/L` pointing back at the directory `r`. -/
def fsCycle : Fs :=
  [(["r"], FsEntry.dir ["L", "f"]),
   (["r", "L"], FsEntry.symlink ["r"]),
   (["r", "f"], FsEntry.file)]

/-- Example: a root directory holding one regular file. -/
def fsSimple : Fs :=
  [(["r"], FsEntry.dir ["f"]),
   (["r", "f"], FsEntry.file)]

/-- The FileInfo of the one file of `fsSimple`. -/
def fiSimple : FileInfo := { path := ["r", "f"], mode := ModeKind.file }

/-- Example: the scan root `r` is itself a symlink to directory `d`, so
the regular file under it is reached through a symlinked ancestor. -/
def fsAncestor : Fs :=
  [(["r"], FsEntry.symlink ["d"]),
   (["d"], FsEntry.dir ["f"]),
   (["d", "f"], FsEntry.file)]

/-- Example: a two-level symlink-free tree with two regular files. -/
def fsNested : Fs :=
  [(["r"], FsEntry.dir ["a", "d"]),
   (["r", "a"], FsEntry.file),
   (["r", "d"], FsEntry.dir ["b"]),
   (["r", "d", "b"], FsEntry.file)]

/-- Entries that represent error-free, non-symlink filesystem objects. -/
def entryFileOrDir : FsEntry → Bool
  | FsEntry.file => true
  | FsEntry.dir _ => true
  | _ => false

/-- Subtree-size certificate for `fsNested`, used to instantiate the
tree-walk theorem at a concrete nested tree. -/
def muNested : FPath → Nat := fun p =>
  if p = ["r"] then 4
  else if p = ["r", "a"] then 1
  else if p = ["r", "d"] then 2
  else if p = ["r", "d", "b"] then 1
  else 0

/-- File-count certificate for `fsNested`. -/
def phiNested : FPath → Nat := fun p =>
  if p = ["r"] then 2
  else if p = ["r", "a"] then 1
  else if p = ["r", "d"] then 1
  else if p = ["r", "d", "b"] then 1
  else 0

/-- Example: a zero-file tree whose only subdirectory raises
`PermissionError` on listing — the scan completes with `files = 0` and
one recorded problem. -/
def fsDenied : Fs :=
  [(["r"], FsEntry.dir ["d"]),
   (["r", "d"], FsEntry.dirDenied [])]

/-- Example: an error-free zero-file tree, a root holding one empty
subdirectory. -/
def fsEmptyDir : Fs :=
  [(["r"], FsEntry.dir ["e"]),
   (["r", "e"], FsEntry.dir [])]

/-- Subtree-size certificate for `fsEmptyDir`. -/
def muEmptyDir : FPath → Nat := fun p =>
  if p = ["r"] then 2
  else if p = ["r", "e"] then 1
  else 0

/-- File-count certificate for `fsEmptyDir` (the tree has no files). -/
def phiEmptyDir : FPath → Nat := fun _ => 0

lemma lookupRaw_mem {fs : Fs} {p : FPath} {e : FsEntry} (h : lookupRaw fs p = some e) :
    (p, e) ∈ fs := by
  unfold lookupRaw at h
  cases hf : fs.find? (fun x => x.1 == p) with
  | none => rw [hf] at h; cases h
  | some x =>
    rw [hf] at h
    simp at h
    have hm := List.mem_of_find?_eq_some hf
    have hp : (fun y : FPath × FsEntry => y.1 == p) x = true :=
      @List.find?_some _ (fun y : FPath × FsEntry => y.1 == p) x fs hf
    have hx1 : x.1 = p := by simpa using hp
    have : x = (p, e) := by
      cases x with
      | mk a b => simp only at hx1 h; rw [hx1] at hm ⊢; rw [h] at hm ⊢
    rwa [this] at hm

lemma realpathAux_no_link {fs : Fs}
    (hns : ∀ pe ∈ fs, ∀ tgt, pe.2 ≠ FsEntry.symlink tgt) :
    ∀ (n : Nat) (acc rest : FPath), realpathAux fs n acc rest = acc ++ rest := by
  intro n
  induction n with
  | zero => intro acc rest; rfl
  | succ n ih =>
    intro acc rest
    cases rest with
    | nil => simp [realpathAux]
    | cons c r2 =>
      unfold realpathAux
      cases hl : lookupRaw fs (acc ++ [c]) with
      | none => simp only [hl]; rw [ih]; simp
      | some e =>
        cases e with
        | symlink tgt => exact absurd rfl (hns _ (lookupRaw_mem hl) tgt)
        | file => simp only [hl]; rw [ih]; simp
        | dir cs => simp only [hl]; rw [ih]; simp
        | dirDenied cs => simp only [hl]; rw [ih]; simp
        | statDenied => simp only [hl]; rw [ih]; simp
        | statErr => simp only [hl]; rw [ih]; simp

lemma realpath_no_link {fs : Fs}
    (hns : ∀ pe ∈ fs, ∀ tgt, pe.2 ≠ FsEntry.symlink tgt) (p : FPath) :
    realpath fs p = p := by
  unfold realpath
  rw [realpathAux_no_link hns]
  simp

lemma clean_no_link {fs : Fs} (hclean : ∀ pe ∈ fs, entryFileOrDir pe.2 = true) :
    ∀ pe ∈ fs, ∀ tgt, pe.2 ≠ FsEntry.symlink tgt := by
  intro pe hm tgt heq
  have := hclean pe hm
  rw [heq] at this
  simp [entryFileOrDir] at this

lemma statFs_clean_file {fs : Fs} {p : FPath}
    (hclean : ∀ pe ∈ fs, entryFileOrDir pe.2 = true)
    (h : lookupRaw fs p = some FsEntry.file) :
    statFs fs p = Except.ok ModeKind.file := by
  unfold statFs
  rw [realpath_no_link (clean_no_link hclean), h]

lemma statFs_clean_dir {fs : Fs} {p : FPath} {cs : List String}
    (hclean : ∀ pe ∈ fs, entryFileOrDir pe.2 = true)
    (h : lookupRaw fs p = some (FsEntry.dir cs)) :
    statFs fs p = Except.ok ModeKind.dir := by
  unfold statFs
  rw [realpath_no_link (clean_no_link hclean), h]

lemma listdirFs_clean_dir {fs : Fs} {p : FPath} {cs : List String}
    (hclean : ∀ pe ∈ fs, entryFileOrDir pe.2 = true)
    (h : lookupRaw fs p = some (FsEntry.dir cs)) :
    listdirFs fs p = Except.ok cs := by
  unfold listdirFs
  rw [realpath_no_link (clean_no_link hclean), h]

lemma is_link_clean {fs : Fs} {p : FPath} {e : FsEntry}
    (hclean : ∀ pe ∈ fs, entryFileOrDir pe.2 = true)
    (hp : p ≠ []) (h : lookupRaw fs p = some e) :
    is_link fs p = false := by
  have hns := clean_no_link hclean
  have hfd := hclean _ (lookupRaw_mem h)
  unfold is_link islinkFs lstatFs
  cases hg : p.getLast? with
  | none => exact absurd (List.getLast?_eq_none_iff.mp hg) hp
  | some c =>
    have hc : p.dropLast ++ [c] = p := by
      have := List.getLast?_eq_getLast p hp
      rw [this] at hg
      injection hg with hg2
      rw [hg2.symm] at *
      exact List.dropLast_append_getLast hp
    rw [realpathAux_no_link hns]
    simp only [List.nil_append, hc, h]
    rw [realpath_no_link hns]
    cases e with
    | file => simp
    | dir cs => simp
    | dirDenied cs => simp [entryFileOrDir] at hfd
    | symlink tgt => simp [entryFileOrDir] at hfd
    | statDenied => simp [entryFileOrDir] at hfd
    | statErr => simp [entryFileOrDir] at hfd

lemma mkFileInfo_clean_file {fs : Fs} {p : FPath} (link : Bool)
    (hclean : ∀ pe ∈ fs, entryFileOrDir pe.2 = true)
    (h : lookupRaw fs p = some FsEntry.file) :
    mkFileInfo fs p link = Except.ok { path := p, mode := ModeKind.file } := by
  unfold mkFileInfo
  rw [statFs_clean_file hclean h, realpath_no_link (clean_no_link hclean)]
  simp

lemma mkFileInfo_clean_dir {fs : Fs} {p : FPath} {cs : List String} (link : Bool)
    (hclean : ∀ pe ∈ fs, entryFileOrDir pe.2 = true)
    (h : lookupRaw fs p = some (FsEntry.dir cs)) :
    mkFileInfo fs p link = Except.ok { path := p, mode := ModeKind.dir } := by
  unfold mkFileInfo
  rw [statFs_clean_dir hclean h, realpath_no_link (clean_no_link hclean)]
  simp

lemma buildStep_clean_file {fs : Fs} {q : FPath} {l : List FPath} {s : BuildSt}
    (link : Bool)
    (hclean : ∀ pe ∈ fs, entryFileOrDir pe.2 = true)
    (hq : lookupRaw fs q = some FsEntry.file) (hqne : q ≠ [])
    (hs : s.toAdd = l ++ [q]) :
    buildStep fs [] link s =
      { s with toAdd := l,
               ck := { s.ck with checklist := s.ck.checklist ++ [{ path := q, mode := ModeKind.file }] },
               lastApath := some { path := q, mode := ModeKind.file } } := by
  have h1 : s.toAdd.getLast? = some q := by rw [hs]; exact List.getLast?_concat l
  have h2 : s.toAdd.dropLast = l := by rw [hs]; exact List.dropLast_concat
  have h3 := mkFileInfo_clean_file link hclean hq
  have h4 := is_link_clean hclean hqne hq
  simp only [buildStep, h1, h2, h3, h4]
  simp

lemma buildStep_clean_dir {fs : Fs} {q : FPath} {cs : List String} {l : List FPath}
    {s : BuildSt} (link : Bool)
    (hclean : ∀ pe ∈ fs, entryFileOrDir pe.2 = true)
    (hq : lookupRaw fs q = some (FsEntry.dir cs)) (hqne : q ≠ [])
    (hs : s.toAdd = l ++ [q]) :
    buildStep fs [] link s =
      { s with toAdd := l ++ cs.map (fun n => q ++ [n]),
               lastApath := some { path := q, mode := ModeKind.dir } } := by
  have h1 : s.toAdd.getLast? = some q := by rw [hs]; exact List.getLast?_concat l
  have h2 : s.toAdd.dropLast = l := by rw [hs]; exact List.dropLast_concat
  have h3 := mkFileInfo_clean_dir link hclean hq
  have h4 := is_link_clean hclean hqne hq
  have h5 := listdirFs_clean_dir hclean hq
  simp only [buildStep, h1, h2, h3, h4, h5]
  simp

lemma buildStep_fields (fs : Fs) (ignore : List FPath) (link : Bool) (s : BuildSt) :
    (buildStep fs ignore link s).ck.cfiles = s.ck.cfiles ∧
    (buildStep fs ignore link s).ck.checks = s.ck.checks ∧
    (buildStep fs ignore link s).ck.starttime = s.ck.starttime ∧
    (buildStep fs ignore link s).ck.files = s.ck.files ∧
    ∃ t, (buildStep fs ignore link s).ck.checklist = s.ck.checklist ++ t ∧
      ∀ fi ∈ t, is_link fs fi.path = false := by
  unfold buildStep
  repeat' split
  all_goals refine ⟨rfl, rfl, rfl, rfl, ?_⟩
  all_goals try (refine ⟨[], ?_, ?_⟩ <;> simp <;> done)
  rename_i hnotmem hlink hnotdir
  refine ⟨[_], rfl, ?_⟩
  intro fi hfi
  simp at hfi
  rw [hfi]
  simpa using hlink

lemma buildRun_fields (fs : Fs) (ignore : List FPath) (link : Bool) :
    ∀ (n : Nat) (s : BuildSt),
    (buildRun fs ignore link n s).ck.cfiles = s.ck.cfiles ∧
    (buildRun fs ignore link n s).ck.checks = s.ck.checks ∧
    (buildRun fs ignore link n s).ck.starttime = s.ck.starttime ∧
    (buildRun fs ignore link n s).ck.files = s.ck.files ∧
    ∃ t, (buildRun fs ignore link n s).ck.checklist = s.ck.checklist ++ t ∧
      ∀ fi ∈ t, is_link fs fi.path = false := by
  intro n
  induction n with
  | zero => intro s; exact ⟨rfl, rfl, rfl, rfl, [], (List.append_nil _).symm, by simp⟩
  | succ n ih =>
    intro s
    unfold buildRun
    by_cases ha : s.aborted = true
    · rw [if_pos ha]
      exact ⟨rfl, rfl, rfl, rfl, [], by simp, by simp⟩
    · rw [if_neg ha]
      by_cases he : s.toAdd.isEmpty = true
      · rw [if_pos he]
        exact ⟨rfl, rfl, rfl, rfl, [], by simp, by simp⟩
      · rw [if_neg he]
        obtain ⟨h1, h2, h3, h4, t1, h5, h6⟩ := buildStep_fields fs ignore link s
        obtain ⟨g1, g2, g3, g4, t2, g5, g6⟩ := ih (buildStep fs ignore link s)
        refine ⟨by rw [g1, h1], by rw [g2, h2], by rw [g3, h3], by rw [g4, h4],
          t1 ++ t2, ?_, ?_⟩
        · rw [g5, h5, List.append_assoc]
        · intro fi hfi
          rcases List.mem_append.mp hfi with hm | hm
          · exact h6 fi hm
          · exact g6 fi hm

lemma setFilesCount_fields (s : BuildSt) :
    (setFilesCount s).ck.cfiles = s.ck.cfiles ∧
    (setFilesCount s).ck.checks = s.ck.checks ∧
    (setFilesCount s).ck.starttime = s.ck.starttime ∧
    (setFilesCount s).ck.checklist = s.ck.checklist ∧
    (setFilesCount s).ck.probs = s.ck.probs ∧
    (setFilesCount s).toAdd = s.toAdd ∧
    (setFilesCount s).aborted = s.aborted := by
  unfold setFilesCount
  split
  · exact ⟨rfl, rfl, rfl, rfl, rfl, rfl, rfl⟩
  · exact ⟨rfl, rfl, rfl, rfl, rfl, rfl, rfl⟩

lemma setFilesCount_files {s : BuildSt}
    (hab : s.aborted = false) (htd : s.toAdd = []) :
    (setFilesCount s).ck.files = s.ck.checklist.length := by
  unfold setFilesCount
  rw [hab, htd]
  simp

lemma build_checklist_eq_ok {fs : Fs} {path : FPath} {names : List String}
    (ignore : List FPath) (ck : Checker) (link : Bool) (fuel : Nat)
    (hl : listdirFs fs path = Except.ok names) :
    build_checklist fs ignore ck path link fuel =
      setFilesCount (buildRun fs ignore link fuel
        { toAdd := names.map (fun n => path ++ [n]), ck := ck, lastApath := none,
          aborted := false }) := by
  unfold build_checklist
  rw [hl]

lemma build_checklist_eq_error {fs : Fs} {path : FPath} {e : OSErr}
    (ignore : List FPath) (ck : Checker) (link : Bool) (fuel : Nat)
    (hl : listdirFs fs path = Except.error e) :
    build_checklist fs ignore ck path link fuel =
      { toAdd := [], ck := ck, lastApath := none, aborted := true } := by
  unfold build_checklist
  rw [hl]

lemma build_checklist_fields (fs : Fs) (ignore : List FPath) (ck : Checker)
    (path : FPath) (link : Bool) (fuel : Nat) :
    (build_checklist fs ignore ck path link fuel).ck.cfiles = ck.cfiles ∧
    (build_checklist fs ignore ck path link fuel).ck.checks = ck.checks ∧
    (build_checklist fs ignore ck path link fuel).ck.starttime = ck.starttime ∧
    ∃ t, (build_checklist fs ignore ck path link fuel).ck.checklist = ck.checklist ++ t ∧
      ∀ fi ∈ t, is_link fs fi.path = false := by
  cases hl : listdirFs fs path with
  | error e =>
    rw [build_checklist_eq_error ignore ck link fuel hl]
    exact ⟨rfl, rfl, rfl, [], by simp, by simp⟩
  | ok names =>
    rw [build_checklist_eq_ok ignore ck link fuel hl]
    obtain ⟨h1, h2, h3, h4, t, h5, h6⟩ := buildRun_fields fs ignore link fuel
      { toAdd := names.map (fun n => path ++ [n]), ck := ck, lastApath := none,
        aborted := false }
    obtain ⟨g1, g2, g3, g4, g5, g6, g7⟩ := setFilesCount_fields (buildRun fs ignore link fuel
      { toAdd := names.map (fun n => path ++ [n]), ck := ck, lastApath := none,
        aborted := false })
    exact ⟨by rw [g1, h1], by rw [g2, h2], by rw [g3, h3], t, by rw [g4, h5], h6⟩

lemma build_checklist_files {fs : Fs} {ignore : List FPath} {ck : Checker}
    {path : FPath} {link : Bool} {fuel : Nat}
    (hab : (build_checklist fs ignore ck path link fuel).aborted = false)
    (htd : (build_checklist fs ignore ck path link fuel).toAdd = []) :
    (build_checklist fs ignore ck path link fuel).ck.files =
      (build_checklist fs ignore ck path link fuel).ck.checklist.length := by
  cases hl : listdirFs fs path with
  | error e =>
    rw [build_checklist_eq_error ignore ck link fuel hl] at hab
    cases hab
  | ok names =>
    rw [build_checklist_eq_ok ignore ck link fuel hl] at hab htd ⊢
    obtain ⟨g1, g2, g3, g4, g5, g6, g7⟩ := setFilesCount_fields (buildRun fs ignore link fuel
      { toAdd := names.map (fun n => path ++ [n]), ck := ck, lastApath := none,
        aborted := false })
    rw [g6] at htd
    rw [g7] at hab
    rw [setFilesCount_files hab htd, g4]

/-- Main work-list induction for error-free, symlink-free trees: given
size and file-count certificates for the reachable paths (the equations a
finite directory tree satisfies), the loop drains its pending list,
never aborts, and appends exactly the subtree file counts to the
work-list, leaving the problem list untouched. -/
theorem buildRun_tree (fs : Fs) (link : Bool) (mu phi : FPath → Nat)
    (hclean : ∀ pe ∈ fs, entryFileOrDir pe.2 = true)
    (hfile : ∀ p, lookupRaw fs p = some FsEntry.file → mu p = 1 ∧ phi p = 1)
    (hdir : ∀ p cs, lookupRaw fs p = some (FsEntry.dir cs) →
      mu p = 1 + ((cs.map (fun n => mu (p ++ [n]))).sum) ∧
      phi p = ((cs.map (fun n => phi (p ++ [n]))).sum) ∧
      ∀ n ∈ cs, (lookupRaw fs (p ++ [n])).isSome) :
    ∀ (k : Nat) (s : BuildSt), s.aborted = false →
      (∀ p ∈ s.toAdd, p ≠ [] ∧ (lookupRaw fs p).isSome) →
      (s.toAdd.map mu).sum ≤ k →
      (buildRun fs [] link k s).toAdd = [] ∧
      (buildRun fs [] link k s).aborted = false ∧
      (buildRun fs [] link k s).ck.checklist.length
        = s.ck.checklist.length + (s.toAdd.map phi).sum ∧
      (buildRun fs [] link k s).ck.probs = s.ck.probs := by
  have hmu : ∀ p : FPath, (lookupRaw fs p).isSome → 1 ≤ mu p := by
    intro p hp
    cases hl : lookupRaw fs p with
    | none => rw [hl] at hp; cases hp
    | some e =>
      have hfd := hclean _ (lookupRaw_mem hl)
      cases e with
      | file => have := (hfile p hl).1; omega
      | dir cs => have := (hdir p cs hl).1; omega
      | dirDenied cs => simp [entryFileOrDir] at hfd
      | symlink tgt => simp [entryFileOrDir] at hfd
      | statDenied => simp [entryFileOrDir] at hfd
      | statErr => simp [entryFileOrDir] at hfd
  intro k
  induction k with
  | zero =>
    intro s hab hval hsum
    have hempty : s.toAdd = [] := by
      cases ht : s.toAdd with
      | nil => rfl
      | cons q rest =>
        exfalso
        rw [ht] at hsum
        have h1 := hmu q ((hval q (by rw [ht]; exact List.mem_cons_self q rest)).2)
        simp at hsum
        omega
    refine ⟨hempty, hab, ?_, rfl⟩
    rw [hempty]
    simp [buildRun]
  | succ k ih =>
    intro s hab hval hsum
    by_cases hne : s.toAdd = []
    · have hrun : buildRun fs [] link (k + 1) s = s := by
        simp only [buildRun]
        rw [if_neg (by simp [hab]), if_pos (by simp [hne])]
      rw [hrun, hne]
      simp [hab]
    · obtain ⟨q, hq⟩ : ∃ q, s.toAdd.getLast? = some q :=
        ⟨s.toAdd.getLast hne, List.getLast?_eq_getLast s.toAdd hne⟩
      have hqlast : s.toAdd.getLast hne = q := by
        have h2 := List.getLast?_eq_getLast s.toAdd hne
        rw [hq] at h2
        injection h2.symm
      have hsplit0 : s.toAdd.dropLast ++ [q] = s.toAdd := by
        have h2 := List.dropLast_append_getLast hne
        rw [hqlast] at h2
        exact h2
      obtain ⟨l, hsplit⟩ : ∃ l, s.toAdd = l ++ [q] := ⟨s.toAdd.dropLast, hsplit0.symm⟩
      obtain ⟨hqne, hqsome⟩ :=
        hval q (by rw [hsplit]; exact List.mem_append_right _ (by simp))
      have hrun : buildRun fs [] link (k + 1) s
          = buildRun fs [] link k (buildStep fs [] link s) := by
        simp only [buildRun]
        rw [if_neg (by simp [hab]), if_neg (by simp [List.isEmpty_iff, hne])]
      cases hle : lookupRaw fs q with
      | none => rw [hle] at hqsome; cases hqsome
      | some e =>
        have hfd := hclean _ (lookupRaw_mem hle)
        cases e with
        | dirDenied cs => simp [entryFileOrDir] at hfd
        | symlink tgt => simp [entryFileOrDir] at hfd
        | statDenied => simp [entryFileOrDir] at hfd
        | statErr => simp [entryFileOrDir] at hfd
        | file =>
          have hstep := buildStep_clean_file link hclean hle hqne hsplit
          have hmuq := (hfile q hle).1
          have hphiq := (hfile q hle).2
          rw [hsplit] at hsum
          simp only [List.map_append, List.sum_append, List.map_cons, List.map_nil,
            List.sum_cons, List.sum_nil] at hsum
          obtain ⟨c1, c2, c3, c4⟩ := ih
            { s with toAdd := l,
                     ck := { s.ck with
                       checklist := s.ck.checklist ++ [{ path := q, mode := ModeKind.file }] },
                     lastApath := some { path := q, mode := ModeKind.file } }
            hab
            (by
              intro p hp
              exact hval p (by rw [hsplit]; exact List.mem_append_left _ hp))
            (by dsimp only; omega)
          rw [hrun, hstep]
          refine ⟨c1, c2, ?_, c4⟩
          rw [c3, hsplit]
          dsimp only
          simp only [List.map_append, List.sum_append, List.map_cons, List.map_nil,
            List.sum_cons, List.sum_nil, List.length_append, List.length_cons,
            List.length_nil]
          omega
        | dir cs =>
          have hstep := buildStep_clean_dir link hclean hle hqne hsplit
          obtain ⟨hmuq, hphiq, hchild⟩ := hdir q cs hle
          rw [hsplit] at hsum
          simp only [List.map_append, List.sum_append, List.map_cons, List.map_nil,
            List.sum_cons, List.sum_nil] at hsum
          have hcompmu : ((cs.map (fun n => q ++ [n])).map mu).sum
              = (cs.map (fun n => mu (q ++ [n]))).sum := by
            rw [List.map_map]
            rfl
          have hcompphi : ((cs.map (fun n => q ++ [n])).map phi).sum
              = (cs.map (fun n => phi (q ++ [n]))).sum := by
            rw [List.map_map]
            rfl
          obtain ⟨c1, c2, c3, c4⟩ := ih
            { s with toAdd := l ++ cs.map (fun n => q ++ [n]),
                     lastApath := some { path := q, mode := ModeKind.dir } }
            hab
            (by
              intro p hp
              rcases List.mem_append.mp hp with hm | hm
              · exact hval p (by rw [hsplit]; exact List.mem_append_left _ hm)
              · obtain ⟨n, hn, rfl⟩ := List.mem_map.mp hm
                exact ⟨by simp, hchild n hn⟩)
            (by
              dsimp only
              simp only [List.map_append, List.sum_append]
              rw [hcompmu]
              omega)
          rw [hrun, hstep]
          refine ⟨c1, c2, ?_, c4⟩
          rw [c3, hsplit]
          dsimp only
          simp only [List.map_append, List.sum_append, List.map_cons, List.map_nil,
            List.sum_cons, List.sum_nil]
          rw [hcompphi]
          omega

/-- `build_checklist` on an error-free, symlink-free, un-ignored tree:
the loop completes without aborting, appends exactly the tree's file
count to the work-list, records no problems, and stores the final
work-list length into the `files` counter. -/
theorem build_checklist_tree (fs : Fs) (link : Bool) (mu phi : FPath → Nat)
    (ck : Checker) (path : FPath) (cs : List String) (fuel : Nat)
    (hclean : ∀ pe ∈ fs, entryFileOrDir pe.2 = true)
    (hfile : ∀ p, lookupRaw fs p = some FsEntry.file → mu p = 1 ∧ phi p = 1)
    (hdir : ∀ p cs2, lookupRaw fs p = some (FsEntry.dir cs2) →
      mu p = 1 + ((cs2.map (fun n => mu (p ++ [n]))).sum) ∧
      phi p = ((cs2.map (fun n => phi (p ++ [n]))).sum) ∧
      ∀ n ∈ cs2, (lookupRaw fs (p ++ [n])).isSome)
    (hroot : lookupRaw fs path = some (FsEntry.dir cs))
    (hfuel : (cs.map (fun n => mu (path ++ [n]))).sum ≤ fuel) :
    (build_checklist fs [] ck path link fuel).toAdd = [] ∧
    (build_checklist fs [] ck path link fuel).aborted = false ∧
    (build_checklist fs [] ck path link fuel).ck.checklist.length
      = ck.checklist.length + phi path ∧
    (build_checklist fs [] ck path link fuel).ck.probs = ck.probs ∧
    (build_checklist fs [] ck path link fuel).ck.files
      = ck.checklist.length + phi path := by
  have hlist : listdirFs fs path = Except.ok cs := listdirFs_clean_dir hclean hroot
  obtain ⟨hmuroot, hphiroot, hchild⟩ := hdir path cs hroot
  have heq := build_checklist_eq_ok ([] : List FPath) ck link fuel hlist
  have hcompmu : ((cs.map (fun n => path ++ [n])).map mu).sum
      = (cs.map (fun n => mu (path ++ [n]))).sum := by
    rw [List.map_map]
    rfl
  have hcompphi : ((cs.map (fun n => path ++ [n])).map phi).sum
      = (cs.map (fun n => phi (path ++ [n]))).sum := by
    rw [List.map_map]
    rfl
  obtain ⟨c1, c2, c3, c4⟩ := buildRun_tree fs link mu phi hclean hfile hdir fuel
    { toAdd := cs.map (fun n => path ++ [n]), ck := ck, lastApath := none,
      aborted := false }
    rfl
    (by
      intro p hp
      dsimp only at hp
      obtain ⟨n, hn, rfl⟩ := List.mem_map.mp hp
      exact ⟨by simp, hchild n hn⟩)
    (by dsimp only; rw [hcompmu]; exact hfuel)
  obtain ⟨g1, g2, g3, g4, g5, g6, g7⟩ := setFilesCount_fields (buildRun fs [] link fuel
    { toAdd := cs.map (fun n => path ++ [n]), ck := ck, lastApath := none,
      aborted := false })
  dsimp only at c3 c4
  rw [hcompphi] at c3
  rw [← hphiroot] at c3
  refine ⟨?_, ?_, ?_, ?_, ?_⟩
  · rw [heq, g6, c1]
  · rw [heq, g7, c2]
  · rw [heq, g4, c3]
  · rw [heq, g5, c4]
  · rw [heq, setFilesCount_files c2 c1, c3]

lemma check_file_ck (sem : Nat → FileInfo → Option String) (ck : Checker)
    (fi : FileInfo) (st : Bool) :
    (check_file sem ck fi st).1.cfiles = ck.cfiles + 1 ∧
    (check_file sem ck fi st).1.files = ck.files ∧
    (check_file sem ck fi st).1.checklist = ck.checklist ∧
    (check_file sem ck fi st).1.starttime = ck.starttime ∧
    (check_file sem ck fi st).1.checks = ck.checks := by
  exact ⟨rfl, rfl, rfl, rfl, rfl⟩

lemma check_file_renders_true (sem : Nat → FileInfo → Option String) (ck : Checker)
    (fi : FileInfo) :
    (check_file sem ck fi true).2 = [(ck.cfiles + 1, ck.files)] := rfl

lemma check_file_renders_false (sem : Nat → FileInfo → Option String) (ck : Checker)
    (fi : FileInfo) :
    (check_file sem ck fi false).2 = [] := rfl

lemma scanList_ck (sem : Nat → FileInfo → Option String) (v : Bool) :
    ∀ (l : List FileInfo) (ck : Checker) (rs : List (Nat × Nat)),
    (scanList sem v (ck, rs) l).1.cfiles = ck.cfiles + l.length ∧
    (scanList sem v (ck, rs) l).1.files = ck.files ∧
    (scanList sem v (ck, rs) l).1.checklist = ck.checklist ∧
    (scanList sem v (ck, rs) l).1.starttime = ck.starttime ∧
    (scanList sem v (ck, rs) l).1.checks = ck.checks := by
  intro l
  induction l with
  | nil => intro ck rs; exact ⟨rfl, rfl, rfl, rfl, rfl⟩
  | cons fi rest ih =>
    intro ck rs
    have hstep : scanList sem v (ck, rs) (fi :: rest)
        = scanList sem v ((check_file sem ck fi v).1, rs ++ (check_file sem ck fi v).2) rest := by
      rfl
    rw [hstep]
    obtain ⟨i1, i2, i3, i4, i5⟩ := ih (check_file sem ck fi v).1
      (rs ++ (check_file sem ck fi v).2)
    obtain ⟨f1, f2, f3, f4, f5⟩ := check_file_ck sem ck fi v
    refine ⟨?_, ?_, ?_, ?_, ?_⟩
    · rw [i1, f1]; simp; omega
    · rw [i2, f2]
    · rw [i3, f3]
    · rw [i4, f4]
    · rw [i5, f5]

lemma scanList_probs_nil (sem : Nat → FileInfo → Option String) (v : Bool)
    (ck : Checker) (rs : List (Nat × Nat)) :
    (scanList sem v (ck, rs) []).1.probs = ck.probs := rfl

lemma scanList_renders_false (sem : Nat → FileInfo → Option String) :
    ∀ (l : List FileInfo) (ck : Checker) (rs : List (Nat × Nat)),
    (scanList sem false (ck, rs) l).2 = rs := by
  intro l
  induction l with
  | nil => intro ck rs; rfl
  | cons fi rest ih =>
    intro ck rs
    have hstep : scanList sem false (ck, rs) (fi :: rest)
        = scanList sem false ((check_file sem ck fi false).1,
            rs ++ (check_file sem ck fi false).2) rest := rfl
    rw [hstep, ih, check_file_renders_false]
    simp

lemma scanList_renders_true (sem : Nat → FileInfo → Option String) :
    ∀ (l : List FileInfo) (ck : Checker) (rs : List (Nat × Nat)),
    (scanList sem true (ck, rs) l).2
      = rs ++ (List.range l.length).map (fun k => (ck.cfiles + 1 + k, ck.files)) := by
  intro l
  induction l with
  | nil => intro ck rs; simp; rfl
  | cons fi rest ih =>
    intro ck rs
    have hstep : scanList sem true (ck, rs) (fi :: rest)
        = scanList sem true ((check_file sem ck fi true).1,
            rs ++ (check_file sem ck fi true).2) rest := rfl
    rw [hstep, ih, check_file_renders_true]
    obtain ⟨f1, f2, f3, f4, f5⟩ := check_file_ck sem ck fi true
    rw [f1, f2]
    rw [List.append_assoc]
    congr 1
    rw [List.length_cons, List.range_succ_eq_map, List.map_cons, List.map_map]
    simp only [List.singleton_append, Nat.add_zero]
    congr 1
    apply List.map_congr_left
    intro a ha
    simp only [Function.comp_apply, Prod.mk.injEq]
    refine ⟨by omega, by simp⟩

lemma scanPhase_done {b : BuildSt} (sem : Nat → FileInfo → Option String)
    (verbose : Bool) (now : Nat) (hab : b.aborted = false) (htd : b.toAdd = []) :
    scanPhase sem verbose now b =
      { ck := (scanList sem verbose ({ b.ck with starttime := now }, []) b.ck.checklist).1,
        aborted := false,
        renders := (scanList sem verbose ({ b.ck with starttime := now }, [])
          b.ck.checklist).2 } := by
  unfold scanPhase
  rw [if_neg (by simp [hab, htd])]

lemma scanPhase_stuck {b : BuildSt} (sem : Nat → FileInfo → Option String)
    (verbose : Bool) (now : Nat) (h : (b.aborted || !b.toAdd.isEmpty) = true) :
    scanPhase sem verbose now b = { ck := b.ck, aborted := true, renders := [] } := by
  unfold scanPhase
  rw [if_pos h]

lemma check_all_not_aborted {fs : Fs} {ignore : List FPath}
    {sem : Nat → FileInfo → Option String} {ck : Checker} {path : FPath} {link : Bool}
    {verbose : Bool} {now : Nat} {fuel : Nat}
    (h : (check_all fs ignore sem ck path link verbose now fuel).aborted = false) :
    (build_checklist fs ignore ck path false fuel).aborted = false ∧
    (build_checklist fs ignore ck path false fuel).toAdd = [] := by
  by_cases hc : ((build_checklist fs ignore ck path false fuel).aborted
      || !(build_checklist fs ignore ck path false fuel).toAdd.isEmpty) = true
  · exfalso
    unfold check_all at h
    rw [scanPhase_stuck sem verbose now hc] at h
    cases h
  · rcases Bool.or_eq_true_iff.not.mp hc with h2
    constructor
    · cases hb : (build_checklist fs ignore ck path false fuel).aborted
      · rfl
      · exact absurd (Or.inl hb) h2
    · cases ht : (build_checklist fs ignore ck path false fuel).toAdd.isEmpty
      · exact absurd (Or.inr (by rw [ht]; rfl)) h2
      · exact List.isEmpty_iff.mp ht

lemma check_all_eq_scan {fs : Fs} {ignore : List FPath}
    {sem : Nat → FileInfo → Option String} {ck : Checker} {path : FPath} {link : Bool}
    {verbose : Bool} {now : Nat} {fuel : Nat}
    (hab : (build_checklist fs ignore ck path false fuel).aborted = false)
    (htd : (build_checklist fs ignore ck path false fuel).toAdd = []) :
    check_all fs ignore sem ck path link verbose now fuel =
      { ck := (scanList sem verbose
          ({ (build_checklist fs ignore ck path false fuel).ck with starttime := now }, [])
          (build_checklist fs ignore ck path false fuel).ck.checklist).1,
        aborted := false,
        renders := (scanList sem verbose
          ({ (build_checklist fs ignore ck path false fuel).ck with starttime := now }, [])
          (build_checklist fs ignore ck path false fuel).ck.checklist).2 } := by
  unfold check_all
  exact scanPhase_done sem verbose now hab htd

lemma foldl_append_eq_map (f : String → String) :
    ∀ (l : List String) (acc : List String),
    l.foldl (fun ig line => ig ++ [f line]) acc = acc ++ l.map f := by
  intro l
  induction l with
  | nil => intro acc; simp
  | cons x rest ih =>
    intro acc
    simp only [List.foldl_cons, List.map_cons]
    rw [ih]
    simp

/-- Claim C6: parsing an ignore file produces exactly one rule per input
line, each line having everything from the first hash character onward
removed and the remainder trimmed of surrounding whitespace; blank
resulting lines are retained, so no line is dropped. -/
theorem parse_ignore_rules_line_by_line :
    ∀ contents : String,
    parse_ignore_rules (some contents) = (pythonLines contents).map strip_comments ∧
    (parse_ignore_rules (some contents)).length = (pythonLines contents).length := by
  intro c
  have h := foldl_append_eq_map strip_comments (pythonLines c) []
  have heq : parse_ignore_rules (some c)
      = (pythonLines c).foldl (fun ig line => ig ++ [strip_comments line]) [] := rfl
  rw [heq, h]
  simp

/-- Claim C7: when the per-user ignore file is absent, loading the
ignore rules yields the empty rule set without error, so no path is
excluded by an ignore rule. -/
theorem absent_ignore_file_empty_rules :
    ∀ home : List (String × String),
    find_ignore_file home = none →
    parse_ignore_rules (find_ignore_file home) = [] ∧
    ∀ rule : String, rule ∉ parse_ignore_rules (find_ignore_file home) := by
  intro home h
  rw [h]
  refine ⟨rfl, ?_⟩
  intro rule hr
  simp [parse_ignore_rules] at hr

theorem absent_ignore_file_empty_rules_witness :
    parse_ignore_rules (find_ignore_file []) = [] ∧
    "data" ∉ parse_ignore_rules (find_ignore_file []) :=
  ⟨(absent_ignore_file_empty_rules [] rfl).1,
   (absent_ignore_file_empty_rules [] rfl).2 "data"⟩

/-- Claim C8: predicate registration is idempotent — registering the
same check twice leaves the Checker's set of checks (and hence the whole
Checker state and every subsequent `check_file` outcome) the same as
registering it once. -/
theorem register_idempotent :
    ∀ (ck : Checker) (f : Nat),
    register (register ck f) f = register ck f ∧
    (register (register ck f) f).checks = (register ck f).checks ∧
    ∀ (sem : Nat → FileInfo → Option String) (fi : FileInfo) (st : Bool),
      check_file sem (register (register ck f) f) fi st
        = check_file sem (register ck f) fi st := by
  intro ck f
  have hmem : f ∈ (register ck f).checks := by
    unfold register
    by_cases hf : f ∈ ck.checks
    · rw [if_pos hf]; exact hf
    · rw [if_neg hf]; simp
  have h1 : register (register ck f) f = register ck f := by
    show (if f ∈ (register ck f).checks then register ck f
      else { register ck f with checks := (register ck f).checks ++ [f] }) = register ck f
    rw [if_pos hmem]
  exact ⟨h1, by rw [h1], by intro sem fi st; rw [h1]⟩

/-- Claim C1 (code bug): a stat failure on the very first candidate path
popped from the work queue — here a dangling symbolic link `r/L` in a
root that also holds a sibling regular file `r/f` — makes the
`except FileNotFoundError` handler read the local variable `apath`,
which was never bound because `FileInfo` construction raised; the
resulting `UnboundLocalError` escapes `build_checklist`, so the scan
aborts with no `PROB_BROKEN_LINK` problem recorded and the sibling
`r/f` (still pending) never inspected, contradicting the claim that
every filesystem error is converted into a problem-list entry and
expansion continues. -/
theorem broken_link_stat_aborts_scan :
    (build_checklist fsBroken [] (mkChecker []) ["r"] false 10).aborted = true ∧
    (build_checklist fsBroken [] (mkChecker []) ["r"] false 10).ck.probs = [] ∧
    (build_checklist fsBroken [] (mkChecker []) ["r"] false 10).ck.checklist = [] ∧
    (build_checklist fsBroken [] (mkChecker []) ["r"] false 10).toAdd = [["r", "f"]] := by
  refine ⟨by decide, by decide, by decide, by decide⟩

/-- Claim C10: `is_link` classifies as a link not only actual symbolic
links but every path whose absolute form differs from its fully resolved
form; in `fsAncestor` the regular file `r/f` reached through the
symlinked root `r` (a symlink to directory `d`) is itself no symlink,
yet is classified as a link and is excluded from the work-list when
symlink following is disabled. -/
theorem is_link_resolved_ancestor :
    (∀ (fs : Fs) (p : FPath), realpath fs p ≠ p → is_link fs p = true) ∧
    islinkFs fsAncestor ["r", "f"] = false ∧
    is_link fsAncestor ["r", "f"] = true ∧
    (build_checklist fsAncestor [] (mkChecker []) ["r"] false 10).ck.checklist = [] ∧
    (build_checklist fsAncestor [] (mkChecker []) ["r"] false 10).aborted = false := by
  refine ⟨?_, by decide, by decide, by decide, by decide⟩
  intro fs p h
  unfold is_link
  simp [h]

theorem is_link_resolved_ancestor_witness :
    is_link fsAncestor ["r", "f"] = true :=
  is_link_resolved_ancestor.1 fsAncestor ["r", "f"] (by decide)

lemma check_all_checklist_no_link {fs : Fs} {ignore : List FPath}
    {sem : Nat → FileInfo → Option String} {ck : Checker} {path : FPath} {link : Bool}
    {verbose : Bool} {now : Nat} {fuel : Nat}
    (hck : ∀ fi ∈ ck.checklist, is_link fs fi.path = false) :
    ∀ fi ∈ (check_all fs ignore sem ck path link verbose now fuel).ck.checklist,
      is_link fs fi.path = false := by
  intro fi hfi
  obtain ⟨b1, b2, b3, t, b5, b6⟩ := build_checklist_fields fs ignore ck path false fuel
  have hmem : fi ∈ (build_checklist fs ignore ck path false fuel).ck.checklist → 
      is_link fs fi.path = false := by
    intro hm
    rw [b5] at hm
    rcases List.mem_append.mp hm with h | h
    · exact hck fi h
    · exact b6 fi h
  by_cases hc : ((build_checklist fs ignore ck path false fuel).aborted
      || !(build_checklist fs ignore ck path false fuel).toAdd.isEmpty) = true
  · unfold check_all at hfi
    rw [scanPhase_stuck sem verbose now hc] at hfi
    exact hmem hfi
  · have hc2 : (build_checklist fs ignore ck path false fuel).aborted = false ∧
        (build_checklist fs ignore ck path false fuel).toAdd = [] := by
      simpa using (Bool.or_eq_true_iff.not.mp hc)
    rw [check_all_eq_scan hc2.1 hc2.2] at hfi
    dsimp only at hfi
    rw [(scanList_ck sem verbose (build_checklist fs ignore ck path false fuel).ck.checklist
      { (build_checklist fs ignore ck path false fuel).ck with starttime := now } []).2.2.1] at hfi
    exact hmem hfi

/-- Claim C9: `check_all` does not forward its `link` argument to
`build_checklist` (source line 85 calls `self.build_checklist(path)`),
so for every value of `link` the scan equals the `link=False` scan and
symbolic links stay excluded from the work-list. -/
theorem check_all_link_not_forwarded :
    (∀ (fs : Fs) (ignore : List FPath) (sem : Nat → FileInfo → Option String)
      (ck : Checker) (path : FPath) (link verbose : Bool) (now fuel : Nat),
      check_all fs ignore sem ck path link verbose now fuel
        = check_all fs ignore sem ck path false verbose now fuel) ∧
    (∀ (fs : Fs) (ignore : List FPath) (sem : Nat → FileInfo → Option String)
      (ck : Checker) (path : FPath) (link verbose : Bool) (now fuel : Nat),
      (∀ fi ∈ ck.checklist, is_link fs fi.path = false) →
      ∀ fi ∈ (check_all fs ignore sem ck path link verbose now fuel).ck.checklist,
        is_link fs fi.path = false) := by
  constructor
  · intro fs ignore sem ck path link verbose now fuel
    rfl
  · intro fs ignore sem ck path link verbose now fuel hck
    exact check_all_checklist_no_link hck

theorem check_all_link_not_forwarded_witness :
    is_link fsNested ["r", "a"] = false :=
  check_all_link_not_forwarded.2 fsNested [] sem0 (mkChecker []) ["r"] true false 0 10
    (by intro fi h; simp [mkChecker] at h)
    { path := ["r", "a"], mode := ModeKind.file } (by decide)

/-- Claim C3 counterexample: on `fsSimple` (one file under the root), a
second `check_all` on the same Checker observes the first scan's state —
the work-list holds the file twice, the files counter says 2, and the
processed counter has climbed to 3 — where the claim predicts a reset to
one entry, one file, one processed. -/
theorem check_all_stale_state :
    (check_all fsSimple [] sem0
        (check_all fsSimple [] sem0 (mkChecker []) ["r"] false false 5 10).ck
        ["r"] false false 9 10).ck.checklist = [fiSimple, fiSimple] ∧
    (check_all fsSimple [] sem0
        (check_all fsSimple [] sem0 (mkChecker []) ["r"] false false 5 10).ck
        ["r"] false false 9 10).ck.cfiles = 3 ∧
    (check_all fsSimple [] sem0
        (check_all fsSimple [] sem0 (mkChecker []) ["r"] false false 5 10).ck
        ["r"] false false 9 10).ck.files = 2 ∧
    (check_all fsSimple [] sem0 (mkChecker []) ["r"] false false 5 10).ck.cfiles = 1 := by
  refine ⟨by decide, by decide, by decide, by decide⟩

/-- Claim C3 amended: at the start of each `check_all` invocation only
the start timestamp is reset; the work-list persists and newly
discovered entries are appended to it, the files count is recomputed
over the combined work-list, and the processed count carries over,
growing by the combined work-list's length. -/
theorem check_all_state_carry_over :
    ∀ (fs : Fs) (ignore : List FPath) (sem : Nat → FileInfo → Option String)
      (ck : Checker) (path : FPath) (link verbose : Bool) (now fuel : Nat),
    (check_all fs ignore sem ck path link verbose now fuel).aborted = false →
    (check_all fs ignore sem ck path link verbose now fuel).ck.starttime = now ∧
    (∃ new, (check_all fs ignore sem ck path link verbose now fuel).ck.checklist
      = ck.checklist ++ new) ∧
    (check_all fs ignore sem ck path link verbose now fuel).ck.cfiles
      = ck.cfiles + (check_all fs ignore sem ck path link verbose now fuel).ck.checklist.length ∧
    (check_all fs ignore sem ck path link verbose now fuel).ck.files
      = (check_all fs ignore sem ck path link verbose now fuel).ck.checklist.length := by
  intro fs ignore sem ck path link verbose now fuel h
  obtain ⟨hab, htd⟩ := check_all_not_aborted h
  obtain ⟨b1, b2, b3, t, b5, b6⟩ := build_checklist_fields fs ignore ck path false fuel
  have hbf := build_checklist_files hab htd
  rw [check_all_eq_scan hab htd]
  dsimp only
  obtain ⟨s1, s2, s3, s4, s5⟩ := scanList_ck sem verbose
    (build_checklist fs ignore ck path false fuel).ck.checklist
    { (build_checklist fs ignore ck path false fuel).ck with starttime := now } []
  refine ⟨?_, ⟨t, ?_⟩, ?_, ?_⟩
  · rw [s4]
  · rw [s3]
    exact b5
  · rw [s1, s3]
    dsimp only
    rw [b1]
  · rw [s2, s3]
    dsimp only
    exact hbf

theorem check_all_state_carry_over_witness :
    (check_all fsSimple [] sem0 (mkChecker []) ["r"] false false 5 10).ck.starttime = 5 ∧
    (check_all fsSimple [] sem0 (mkChecker []) ["r"] false false 5 10).ck.cfiles
      = (mkChecker []).cfiles
        + (check_all fsSimple [] sem0 (mkChecker []) ["r"] false false 5 10).ck.checklist.length ∧
    (check_all fsSimple [] sem0 (mkChecker []) ["r"] false false 5 10).ck.files
      = (check_all fsSimple [] sem0 (mkChecker []) ["r"] false false 5 10).ck.checklist.length :=
  ⟨(check_all_state_carry_over fsSimple [] sem0 (mkChecker []) ["r"] false false 5 10
      (by decide)).1,
   (check_all_state_carry_over fsSimple [] sem0 (mkChecker []) ["r"] false false 5 10
      (by decide)).2.2.1,
   (check_all_state_carry_over fsSimple [] sem0 (mkChecker []) ["r"] false false 5 10
      (by decide)).2.2.2⟩

lemma fsNested_clean : ∀ pe ∈ fsNested, entryFileOrDir pe.2 = true := by decide

lemma fsNested_file : ∀ p, lookupRaw fsNested p = some FsEntry.file →
    muNested p = 1 ∧ phiNested p = 1 := by
  intro p hp
  have hm := lookupRaw_mem hp
  simp only [fsNested, List.mem_cons, List.not_mem_nil, or_false, Prod.mk.injEq] at hm
  rcases hm with ⟨h1, h2⟩ | ⟨h1, h2⟩ | ⟨h1, h2⟩ | ⟨h1, h2⟩ <;> first
    | (exact FsEntry.noConfusion h2)
    | (subst h1; exact ⟨by decide, by decide⟩)

lemma fsNested_dir : ∀ p cs2, lookupRaw fsNested p = some (FsEntry.dir cs2) →
    muNested p = 1 + ((cs2.map (fun n => muNested (p ++ [n]))).sum) ∧
    phiNested p = ((cs2.map (fun n => phiNested (p ++ [n]))).sum) ∧
    ∀ n ∈ cs2, (lookupRaw fsNested (p ++ [n])).isSome := by
  intro p cs2 hp
  have hm := lookupRaw_mem hp
  simp only [fsNested, List.mem_cons, List.not_mem_nil, or_false, Prod.mk.injEq] at hm
  rcases hm with ⟨h1, h2⟩ | ⟨h1, h2⟩ | ⟨h1, h2⟩ | ⟨h1, h2⟩ <;> first
    | (exact FsEntry.noConfusion h2)
    | (subst h1
       injection h2 with h3
       subst h3
       refine ⟨by decide, by decide, by decide⟩)

/-- Claim C4: for every error-free, symlink-free, un-ignored directory
tree — presented through a subtree-size certificate `mu` and file-count
certificate `phi`, which exist exactly for finite trees — a fresh
Checker's `build_checklist` completes, puts exactly `N = phi root`
entries into the work-list regardless of nesting depth, sets the `files`
count to `N`, and records no problems. -/
theorem build_checklist_tree_walk :
    ∀ (fs : Fs) (mu phi : FPath → Nat) (checks : List Nat) (path : FPath)
      (cs : List String) (fuel : Nat) (N : Nat),
    (∀ pe ∈ fs, entryFileOrDir pe.2 = true) →
    (∀ p, lookupRaw fs p = some FsEntry.file → mu p = 1 ∧ phi p = 1) →
    (∀ p cs2, lookupRaw fs p = some (FsEntry.dir cs2) →
      mu p = 1 + ((cs2.map (fun n => mu (p ++ [n]))).sum) ∧
      phi p = ((cs2.map (fun n => phi (p ++ [n]))).sum) ∧
      ∀ n ∈ cs2, (lookupRaw fs (p ++ [n])).isSome) →
    lookupRaw fs path = some (FsEntry.dir cs) →
    (cs.map (fun n => mu (path ++ [n]))).sum ≤ fuel →
    phi path = N →
    (build_checklist fs [] (mkChecker checks) path false fuel).toAdd = [] ∧
    (build_checklist fs [] (mkChecker checks) path false fuel).aborted = false ∧
    (build_checklist fs [] (mkChecker checks) path false fuel).ck.checklist.length = N ∧
    (build_checklist fs [] (mkChecker checks) path false fuel).ck.files = N ∧
    (build_checklist fs [] (mkChecker checks) path false fuel).ck.probs = [] := by
  intro fs mu phi checks path cs fuel N hclean hfile hdir hroot hfuel hN
  obtain ⟨c1, c2, c3, c4, c5⟩ := build_checklist_tree fs false mu phi
    (mkChecker checks) path cs fuel hclean hfile hdir hroot hfuel
  refine ⟨c1, c2, ?_, ?_, c4⟩
  · rw [c3]
    simp [mkChecker, hN]
  · rw [c5]
    simp [mkChecker, hN]

theorem build_checklist_tree_walk_witness :
    (build_checklist fsNested [] (mkChecker []) ["r"] false 10).ck.checklist.length = 2 ∧
    (build_checklist fsNested [] (mkChecker []) ["r"] false 10).ck.files = 2 ∧
    (build_checklist fsNested [] (mkChecker []) ["r"] false 10).ck.probs = [] := by
  have h := build_checklist_tree_walk fsNested muNested phiNested [] ["r"] ["a", "d"] 10 2
    fsNested_clean fsNested_file fsNested_dir (by decide) (by decide) (by decide)
  exact ⟨h.2.2.1, h.2.2.2.1, h.2.2.2.2⟩

/-- Claim C5 counterexample: a zero-file tree need not complete the
scan with zero problems.  On `fsDenied` — a root whose only child is a
permission-denied subdirectory, so the tree holds zero files — the scan
completes (no abort), the files total is 0 and no progress is rendered,
yet exactly one problem, `PROB_DIR_NOT_WRITABLE` for the denied
directory, is recorded, refuting the claim's "a zero-file tree
completes the scan with zero problems". -/
theorem zero_file_tree_scan_with_problem :
    (check_all fsDenied [] sem0 (mkChecker []) ["r"] false true 5 10).aborted = false ∧
    (check_all fsDenied [] sem0 (mkChecker []) ["r"] false true 5 10).ck.files = 0 ∧
    (check_all fsDenied [] sem0 (mkChecker []) ["r"] false true 5 10).ck.probs
      = [({ path := ["r", "d"], mode := ModeKind.dir }, "PROB_DIR_NOT_WRITABLE")] ∧
    (check_all fsDenied [] sem0 (mkChecker []) ["r"] false true 5 10).ck.probs ≠ [] ∧
    (check_all fsDenied [] sem0 (mkChecker []) ["r"] false true 5 10).renders = [] := by
  refine ⟨by decide, by decide, by decide, by decide, by decide⟩

/-- Claim C5 amended: on a fresh Checker the processed count starts at
0 and, in a completed scan, ends equal to the files total; with progress
rendering on, the renders are exactly (1, N), (2, N), ..., (N, N), so
the displayed percentage reaches exactly 100% at the last item; every
render's denominator is the nonzero total, and a zero-file scan renders
no progress at all, the scanning phase adding no problems beyond the
build phase's.  A zero-file tree completes the scan with zero problems
when its expansion met no filesystem errors (second part, stated over
error-free symlink-free trees with zero files via the certificates of
the tree-walk theorem); per the counterexample, a zero-file tree whose
subdirectory is permission-denied instead completes with that problem
recorded. -/
theorem check_all_progress :
    (∀ (fs : Fs) (ignore : List FPath) (sem : Nat → FileInfo → Option String)
      (checks : List Nat) (path : FPath) (now fuel : Nat),
    (check_all fs ignore sem (mkChecker checks) path false true now fuel).aborted = false →
    (mkChecker checks).cfiles = 0 ∧
    (check_all fs ignore sem (mkChecker checks) path false true now fuel).ck.cfiles
      = (check_all fs ignore sem (mkChecker checks) path false true now fuel).ck.files ∧
    (check_all fs ignore sem (mkChecker checks) path false true now fuel).renders
      = (List.range
          (check_all fs ignore sem (mkChecker checks) path false true now fuel).ck.files).map
        (fun k => (k + 1,
          (check_all fs ignore sem (mkChecker checks) path false true now fuel).ck.files)) ∧
    (∀ pr ∈ (check_all fs ignore sem (mkChecker checks) path false true now fuel).renders,
      pr.2 ≠ 0) ∧
    ((check_all fs ignore sem (mkChecker checks) path false true now fuel).ck.files ≠ 0 →
      (write_status
        (check_all fs ignore sem (mkChecker checks) path false true now fuel).ck.files
        (check_all fs ignore sem (mkChecker checks) path false true now fuel).ck.files
        40).1 = 1) ∧
    ((check_all fs ignore sem (mkChecker checks) path false true now fuel).ck.files = 0 →
      (check_all fs ignore sem (mkChecker checks) path false true now fuel).renders = [] ∧
      (check_all fs ignore sem (mkChecker checks) path false true now fuel).ck.probs
        = (build_checklist fs ignore (mkChecker checks) path false fuel).ck.probs)) ∧
    (∀ (fs : Fs) (mu phi : FPath → Nat) (sem : Nat → FileInfo → Option String)
      (checks : List Nat) (path : FPath) (cs : List String) (verbose : Bool)
      (now fuel : Nat),
      (∀ pe ∈ fs, entryFileOrDir pe.2 = true) →
      (∀ p, lookupRaw fs p = some FsEntry.file → mu p = 1 ∧ phi p = 1) →
      (∀ p cs2, lookupRaw fs p = some (FsEntry.dir cs2) →
        mu p = 1 + ((cs2.map (fun n => mu (p ++ [n]))).sum) ∧
        phi p = ((cs2.map (fun n => phi (p ++ [n]))).sum) ∧
        ∀ n ∈ cs2, (lookupRaw fs (p ++ [n])).isSome) →
      lookupRaw fs path = some (FsEntry.dir cs) →
      (cs.map (fun n => mu (path ++ [n]))).sum ≤ fuel →
      phi path = 0 →
      (check_all fs [] sem (mkChecker checks) path false verbose now fuel).aborted = false ∧
      (check_all fs [] sem (mkChecker checks) path false verbose now fuel).ck.files = 0 ∧
      (check_all fs [] sem (mkChecker checks) path false verbose now fuel).ck.probs = [] ∧
      (check_all fs [] sem (mkChecker checks) path false verbose now fuel).renders = [] ∧
      (check_all fs [] sem (mkChecker checks) path false verbose now fuel).ck.cfiles = 0) := by
  constructor
  · intro fs ignore sem checks path now fuel h
    obtain ⟨hab, htd⟩ := check_all_not_aborted h
    obtain ⟨b1, b2, b3, t, b5, b6⟩ := build_checklist_fields fs ignore (mkChecker checks)
      path false fuel
    have hbf := build_checklist_files hab htd
    rw [check_all_eq_scan hab htd]
    dsimp only
    obtain ⟨s1, s2, s3, s4, s5⟩ := scanList_ck sem true
      (build_checklist fs ignore (mkChecker checks) path false fuel).ck.checklist
      { (build_checklist fs ignore (mkChecker checks) path false fuel).ck with
        starttime := now } []
    have hr := scanList_renders_true sem
      (build_checklist fs ignore (mkChecker checks) path false fuel).ck.checklist
      { (build_checklist fs ignore (mkChecker checks) path false fuel).ck with
        starttime := now } []
    have hcf0 : (build_checklist fs ignore (mkChecker checks) path false fuel).ck.cfiles = 0 := by
      rw [b1]
      rfl
    have hN : ({ (build_checklist fs ignore (mkChecker checks) path false fuel).ck with
        starttime := now } : Checker).files
        = (build_checklist fs ignore (mkChecker checks) path false fuel).ck.checklist.length := by
      dsimp only
      exact hbf
    have hfiles : (scanList sem true
        ({ (build_checklist fs ignore (mkChecker checks) path false fuel).ck with
          starttime := now }, [])
        (build_checklist fs ignore (mkChecker checks) path false fuel).ck.checklist).1.files
        = (build_checklist fs ignore (mkChecker checks) path false fuel).ck.checklist.length := by
      rw [s2]
      exact hN
    refine ⟨rfl, ?_, ?_, ?_, ?_, ?_⟩
    · rw [s1, hfiles]
      dsimp only
      rw [hcf0]
      omega
    · rw [hr, hfiles]
      simp only [List.nil_append]
      apply List.map_congr_left
      intro a ha
      dsimp only
      rw [hcf0, hN]
      simp [Nat.add_comm]
    · intro pr hpr
      rw [hr] at hpr
      simp only [List.nil_append, List.mem_map, List.mem_range] at hpr
      obtain ⟨a, ha, hpr2⟩ := hpr
      rw [← hpr2]
      dsimp only
      rw [hN]
      omega
    · intro hne
      unfold write_status
      dsimp only
      rw [div_self (by exact_mod_cast hne)]
    · intro hzero
      rw [hfiles] at hzero
      have hnil : (build_checklist fs ignore (mkChecker checks) path false fuel).ck.checklist
          = [] := List.length_eq_zero.mp hzero
      constructor
      · rw [hr, hnil]
        simp
      · rw [hnil]
        rw [scanList_probs_nil]
  · intro fs mu phi sem checks path cs verbose now fuel hclean hfile hdir hroot hfuel hzero
    obtain ⟨c1, c2, c3, c4, c5⟩ := build_checklist_tree fs false mu phi (mkChecker checks)
      path cs fuel hclean hfile hdir hroot hfuel
    have hnil : (build_checklist fs [] (mkChecker checks) path false fuel).ck.checklist
        = [] := by
      apply List.length_eq_zero.mp
      rw [c3, hzero]
      simp [mkChecker]
    have hfiles0 : (build_checklist fs [] (mkChecker checks) path false fuel).ck.files
        = 0 := by
      rw [c5, hzero]
      simp [mkChecker]
    have hprobs0 : (build_checklist fs [] (mkChecker checks) path false fuel).ck.probs
        = [] := by
      rw [c4]
      rfl
    have hcf0 : (build_checklist fs [] (mkChecker checks) path false fuel).ck.cfiles
        = 0 := by
      rw [(build_checklist_fields fs [] (mkChecker checks) path false fuel).1]
      rfl
    rw [check_all_eq_scan c2 c1]
    dsimp only
    rw [hnil]
    exact ⟨rfl, hfiles0, hprobs0, rfl, hcf0⟩

lemma fsEmptyDir_clean : ∀ pe ∈ fsEmptyDir, entryFileOrDir pe.2 = true := by decide

lemma fsEmptyDir_file : ∀ p, lookupRaw fsEmptyDir p = some FsEntry.file →
    muEmptyDir p = 1 ∧ phiEmptyDir p = 1 := by
  intro p hp
  have hm := lookupRaw_mem hp
  simp only [fsEmptyDir, List.mem_cons, List.not_mem_nil, or_false, Prod.mk.injEq] at hm
  rcases hm with ⟨h1, h2⟩ | ⟨h1, h2⟩ <;> exact FsEntry.noConfusion h2

lemma fsEmptyDir_dir : ∀ p cs2, lookupRaw fsEmptyDir p = some (FsEntry.dir cs2) →
    muEmptyDir p = 1 + ((cs2.map (fun n => muEmptyDir (p ++ [n]))).sum) ∧
    phiEmptyDir p = ((cs2.map (fun n => phiEmptyDir (p ++ [n]))).sum) ∧
    ∀ n ∈ cs2, (lookupRaw fsEmptyDir (p ++ [n])).isSome := by
  intro p cs2 hp
  have hm := lookupRaw_mem hp
  simp only [fsEmptyDir, List.mem_cons, List.not_mem_nil, or_false, Prod.mk.injEq] at hm
  rcases hm with ⟨h1, h2⟩ | ⟨h1, h2⟩ <;>
    (subst h1
     injection h2 with h3
     subst h3
     refine ⟨by decide, by decide, by decide⟩)

theorem check_all_progress_witness :
    (check_all fsSimple [] sem0 (mkChecker []) ["r"] false true 5 10).ck.cfiles
      = (check_all fsSimple [] sem0 (mkChecker []) ["r"] false true 5 10).ck.files ∧
    (check_all fsSimple [] sem0 (mkChecker []) ["r"] false true 5 10).renders
      = (List.range (check_all fsSimple [] sem0 (mkChecker []) ["r"] false true 5 10).ck.files).map
        (fun k => (k + 1,
          (check_all fsSimple [] sem0 (mkChecker []) ["r"] false true 5 10).ck.files)) ∧
    ((check_all fsSimple [] sem0 (mkChecker []) ["r"] false true 5 10).ck.files ≠ 0 →
      (write_status (check_all fsSimple [] sem0 (mkChecker []) ["r"] false true 5 10).ck.files
        (check_all fsSimple [] sem0 (mkChecker []) ["r"] false true 5 10).ck.files 40).1 = 1) ∧
    (check_all fsEmptyDir [] sem0 (mkChecker []) ["r"] false true 5 10).ck.files = 0 ∧
    (check_all fsEmptyDir [] sem0 (mkChecker []) ["r"] false true 5 10).ck.probs = [] ∧
    (check_all fsEmptyDir [] sem0 (mkChecker []) ["r"] false true 5 10).renders = [] :=
  ⟨(check_all_progress.1 fsSimple [] sem0 [] ["r"] 5 10 (by decide)).2.1,
   (check_all_progress.1 fsSimple [] sem0 [] ["r"] 5 10 (by decide)).2.2.1,
   (check_all_progress.1 fsSimple [] sem0 [] ["r"] 5 10 (by decide)).2.2.2.2.1,
   (check_all_progress.2 fsEmptyDir muEmptyDir phiEmptyDir sem0 [] ["r"] ["e"] true 5 10
      fsEmptyDir_clean fsEmptyDir_file fsEmptyDir_dir (by decide) (by decide)
      (by decide)).2.1,
   (check_all_progress.2 fsEmptyDir muEmptyDir phiEmptyDir sem0 [] ["r"] ["e"] true 5 10
      fsEmptyDir_clean fsEmptyDir_file fsEmptyDir_dir (by decide) (by decide)
      (by decide)).2.2.1,
   (check_all_progress.2 fsEmptyDir muEmptyDir phiEmptyDir sem0 [] ["r"] ["e"] true 5 10
      fsEmptyDir_clean fsEmptyDir_file fsEmptyDir_dir (by decide) (by decide)
      (by decide)).2.2.2.1⟩

lemma cycle_step_file (l : List FPath) (ck : Checker) (la : Option FileInfo) :
    buildStep fsCycle [] true
      { toAdd := l ++ [["r", "f"]], ck := ck, lastApath := la, aborted := false }
      = { toAdd := l,
          ck := { ck with checklist := ck.checklist
            ++ [{ path := ["r", "f"], mode := ModeKind.file }] },
          lastApath := some { path := ["r", "f"], mode := ModeKind.file },
          aborted := false } := by
  have h1 : (l ++ [(["r", "f"] : FPath)]).getLast? = some ["r", "f"] :=
    List.getLast?_concat l
  have h3 : mkFileInfo fsCycle ["r", "f"] true
      = Except.ok { path := ["r", "f"], mode := ModeKind.file } := rfl
  have h4 : is_link fsCycle ["r", "f"] = false := by decide
  simp only [buildStep, h1, List.dropLast_concat, h3, h4]
  simp

lemma cycle_step_link (l : List FPath) (ck : Checker) (la : Option FileInfo) :
    buildStep fsCycle [] true
      { toAdd := l ++ [["r", "L"]], ck := ck, lastApath := la, aborted := false }
      = { toAdd := l ++ [["r", "L"], ["r", "f"]],
          ck := ck,
          lastApath := some { path := ["r"], mode := ModeKind.dir },
          aborted := false } := by
  have h1 : (l ++ [(["r", "L"] : FPath)]).getLast? = some ["r", "L"] :=
    List.getLast?_concat l
  have h3 : mkFileInfo fsCycle ["r", "L"] true
      = Except.ok { path := ["r"], mode := ModeKind.dir } := rfl
  have h4 : is_link fsCycle ["r"] = false := by decide
  have h5 : listdirFs fsCycle ["r"] = Except.ok ["L", "f"] := rfl
  simp only [buildStep, h1, List.dropLast_concat, h3, h4, h5]
  simp

lemma cycle_step_root (l : List FPath) (ck : Checker) (la : Option FileInfo) :
    buildStep fsCycle [] true
      { toAdd := l ++ [["r"]], ck := ck, lastApath := la, aborted := false }
      = { toAdd := l ++ [["r", "L"], ["r", "f"]],
          ck := ck,
          lastApath := some { path := ["r"], mode := ModeKind.dir },
          aborted := false } := by
  have h1 : (l ++ [(["r"] : FPath)]).getLast? = some ["r"] :=
    List.getLast?_concat l
  have h3 : mkFileInfo fsCycle ["r"] true
      = Except.ok { path := ["r"], mode := ModeKind.dir } := rfl
  have h4 : is_link fsCycle ["r"] = false := by decide
  have h5 : listdirFs fsCycle ["r"] = Except.ok ["L", "f"] := rfl
  simp only [buildStep, h1, List.dropLast_concat, h3, h4, h5]
  simp

lemma cycle_inv_step {s : BuildSt} (hab : s.aborted = false)
    (hsub : ∀ p ∈ s.toAdd, p = ["r"] ∨ p = ["r", "L"] ∨ p = ["r", "f"])
    (hmem : (["r", "L"] : FPath) ∈ s.toAdd ∨ (["r"] : FPath) ∈ s.toAdd) :
    (buildStep fsCycle [] true s).aborted = false ∧
    (∀ p ∈ (buildStep fsCycle [] true s).toAdd,
      p = ["r"] ∨ p = ["r", "L"] ∨ p = ["r", "f"]) ∧
    ((["r", "L"] : FPath) ∈ (buildStep fsCycle [] true s).toAdd ∨
      (["r"] : FPath) ∈ (buildStep fsCycle [] true s).toAdd) := by
  have hne : s.toAdd ≠ [] := by
    rcases hmem with h | h <;> exact List.ne_nil_of_mem h
  obtain ⟨ta, ck, la, ab⟩ := s
  dsimp only at hab hsub hmem hne ⊢
  subst hab
  obtain ⟨q, hq⟩ : ∃ q, ta.getLast? = some q :=
    ⟨ta.getLast hne, List.getLast?_eq_getLast ta hne⟩
  have hqlast : ta.getLast hne = q := by
    have h2 := List.getLast?_eq_getLast ta hne
    rw [hq] at h2
    injection h2.symm
  obtain ⟨l, hsplit⟩ : ∃ l, ta = l ++ [q] := by
    refine ⟨ta.dropLast, ?_⟩
    conv_lhs => rw [← List.dropLast_append_getLast hne]
    rw [hqlast]
  have hqmem : q ∈ ta := by
    rw [hsplit]
    simp
  subst hsplit
  rcases hsub q hqmem with hcq | hcq | hcq <;> subst hcq
  · rw [cycle_step_root l ck la]
    refine ⟨rfl, ?_, ?_⟩
    · intro p hp
      rcases List.mem_append.mp hp with hm | hm
      · exact hsub p (List.mem_append_left _ hm)
      · simp at hm
        rcases hm with h | h
        · right; left; exact h
        · right; right; exact h
    · left
      simp
  · rw [cycle_step_link l ck la]
    refine ⟨rfl, ?_, ?_⟩
    · intro p hp
      rcases List.mem_append.mp hp with hm | hm
      · exact hsub p (List.mem_append_left _ hm)
      · simp at hm
        rcases hm with h | h
        · right; left; exact h
        · right; right; exact h
    · left
      simp
  · rw [cycle_step_file l ck la]
    refine ⟨rfl, ?_, ?_⟩
    · intro p hp
      exact hsub p (List.mem_append_left _ hp)
    · rcases hmem with h | h
      · rcases List.mem_append.mp h with hm | hm
        · left; exact hm
        · exfalso
          simp at hm
      · rcases List.mem_append.mp h with hm | hm
        · right; exact hm
        · exfalso
          simp at hm

lemma cycle_inv_run : ∀ (n : Nat) (s : BuildSt),
    s.aborted = false →
    (∀ p ∈ s.toAdd, p = ["r"] ∨ p = ["r", "L"] ∨ p = ["r", "f"]) →
    ((["r", "L"] : FPath) ∈ s.toAdd ∨ (["r"] : FPath) ∈ s.toAdd) →
    (buildRun fsCycle [] true n s).aborted = false ∧
    (∀ p ∈ (buildRun fsCycle [] true n s).toAdd,
      p = ["r"] ∨ p = ["r", "L"] ∨ p = ["r", "f"]) ∧
    ((["r", "L"] : FPath) ∈ (buildRun fsCycle [] true n s).toAdd ∨
      (["r"] : FPath) ∈ (buildRun fsCycle [] true n s).toAdd) := by
  intro n
  induction n with
  | zero => intro s hab hsub hmem; exact ⟨hab, hsub, hmem⟩
  | succ n ih =>
    intro s hab hsub hmem
    have hne : s.toAdd ≠ [] := by
      rcases hmem with h | h <;> exact List.ne_nil_of_mem h
    have hrun : buildRun fsCycle [] true (n + 1) s
        = buildRun fsCycle [] true n (buildStep fsCycle [] true s) := by
      simp only [buildRun]
      rw [if_neg (by simp [hab]), if_neg (by simp [List.isEmpty_iff, hne])]
    obtain ⟨i1, i2, i3⟩ := cycle_inv_step hab hsub hmem
    rw [hrun]
    exact ih (buildStep fsCycle [] true s) i1 i2 i3

/-- Claim C2 counterexample: with symlink following enabled on
`fsCycle` — a root directory `r` containing a symbolic link `L`
pointing back at `r` itself — the expansion never terminates: for every
amount of fuel the pending list is still nonempty (and no exception ever
aborts the loop), so no `build_checklist` call completes. -/
theorem symlink_cycle_never_completes :
    ¬ buildCompletes fsCycle [] (mkChecker []) ["r"] true := by
  rintro ⟨fuel, htd, hab⟩
  have hlist : listdirFs fsCycle ["r"] = Except.ok ["L", "f"] := rfl
  rw [build_checklist_eq_ok [] (mkChecker []) true fuel hlist] at htd
  have hml : (["L", "f"] : List String).map (fun n => (["r"] : FPath) ++ [n])
      = [["r", "L"], ["r", "f"]] := rfl
  rw [hml] at htd
  obtain ⟨g1, g2, g3, g4, g5, g6, g7⟩ := setFilesCount_fields
    (buildRun fsCycle [] true fuel
      { toAdd := [["r", "L"], ["r", "f"]], ck := mkChecker [], lastApath := none,
        aborted := false })
  rw [g6] at htd
  obtain ⟨i1, i2, i3⟩ := cycle_inv_run fuel
    { toAdd := [["r", "L"], ["r", "f"]], ck := mkChecker [], lastApath := none,
      aborted := false }
    rfl (by decide) (by decide)
  rcases i3 with h | h <;> (rw [htd] at h; cases h)

/-- Claim C2 amended: (1) with symlink following disabled, no path
classified as a link ever enters the work-list — every work-list entry
of a `build_checklist` run fails `is_link`; (2) with following enabled,
a pending path is processed exactly as its resolved target would be
(one step on the link equals one step on the target, whenever
resolution is stable), so a link to a regular file contributes its
target to the work-list and a link to a directory has the target's
children enqueued; (3) the expansion terminates on symlink-free trees —
but, per the counterexample, need not terminate when a symlink cycle
exists. -/
theorem symlink_policy_amended :
    (∀ (fs : Fs) (ignore : List FPath) (ck : Checker) (path : FPath) (fuel : Nat),
      (∀ fi ∈ ck.checklist, is_link fs fi.path = false) →
      ∀ fi ∈ (build_checklist fs ignore ck path false fuel).ck.checklist,
        is_link fs fi.path = false) ∧
    (∀ (fs : Fs) (ignore : List FPath) (l : List FPath) (p : FPath) (ck : Checker)
      (la : Option FileInfo),
      realpath fs (realpath fs p) = realpath fs p →
      buildStep fs ignore true
          { toAdd := l ++ [p], ck := ck, lastApath := la, aborted := false }
        = buildStep fs ignore true
          { toAdd := l ++ [realpath fs p], ck := ck, lastApath := la,
            aborted := false }) ∧
    (∀ (fs : Fs) (mu phi : FPath → Nat) (ck : Checker) (path : FPath)
      (cs : List String),
      (∀ pe ∈ fs, entryFileOrDir pe.2 = true) →
      (∀ p, lookupRaw fs p = some FsEntry.file → mu p = 1 ∧ phi p = 1) →
      (∀ p cs2, lookupRaw fs p = some (FsEntry.dir cs2) →
        mu p = 1 + ((cs2.map (fun n => mu (p ++ [n]))).sum) ∧
        phi p = ((cs2.map (fun n => phi (p ++ [n]))).sum) ∧
        ∀ n ∈ cs2, (lookupRaw fs (p ++ [n])).isSome) →
      lookupRaw fs path = some (FsEntry.dir cs) →
      buildCompletes fs [] ck path true) := by
  refine ⟨?_, ?_, ?_⟩
  · intro fs ignore ck path fuel hck fi hfi
    obtain ⟨b1, b2, b3, t, b5, b6⟩ := build_checklist_fields fs ignore ck path false fuel
    rw [b5] at hfi
    rcases List.mem_append.mp hfi with h | h
    · exact hck fi h
    · exact b6 fi h
  · intro fs ignore l p ck la hidem
    have hmk : mkFileInfo fs p true = mkFileInfo fs (realpath fs p) true := by
      unfold mkFileInfo statFs
      rw [hidem]
      simp
    simp only [buildStep, List.getLast?_concat, List.dropLast_concat, hmk]
  · intro fs mu phi ck path cs hclean hfile hdir hroot
    obtain ⟨c1, c2, c3, c4, c5⟩ := build_checklist_tree fs true mu phi ck path cs
      ((cs.map (fun n => mu (path ++ [n]))).sum) hclean hfile hdir hroot (le_refl _)
    exact ⟨(cs.map (fun n => mu (path ++ [n]))).sum, c1, c2⟩

theorem symlink_policy_amended_witness :
    is_link fsSimple ["r", "f"] = false ∧
    buildStep fsCycle [] true
        { toAdd := [["r", "L"]], ck := mkChecker [], lastApath := none, aborted := false }
      = buildStep fsCycle [] true
        { toAdd := [(["r"] : FPath)], ck := mkChecker [], lastApath := none,
          aborted := false } ∧
    buildCompletes fsNested [] (mkChecker []) ["r"] true := by
  refine ⟨?_, ?_, ?_⟩
  · exact symlink_policy_amended.1 fsSimple [] (mkChecker []) ["r"] 10
      (by intro fi h; simp [mkChecker] at h) fiSimple (by decide)
  · have h := symlink_policy_amended.2.1 fsCycle [] [] ["r", "L"] (mkChecker []) none
      (by decide)
    have e : realpath fsCycle ["r", "L"] = ["r"] := rfl
    rw [e] at h
    simpa using h
  · exact symlink_policy_amended.2.2 fsNested muNested phiNested (mkChecker []) ["r"]
      ["a", "d"] fsNested_clean fsNested_file fsNested_dir (by decide)
